import Mathlib

/-!
Verification of the lerobot-data-studio frontend state logic.

Shallow embedding of the client-side stores and helpers:
- the per-dataset episode selection store (useSelectedEpisodes.ts),
- the task-tagging store (useTaskManagement),
- the creation-request builder (createDataset.ts),
- the video preloader window logic (useVideoPreloader),
- the async polling loops (api.ts waitForDataset and the creation-status
  polling effect in DatasetViewer).

JavaScript Records keyed by strings or numbers are modelled either as total
functions with the source default (the selection store, which reads
`prev[datasetId] || []`) or as association lists of key/value pairs (the
task-override Record, whose entries the source iterates and deletes).
Numbers used as integers are Nat, or Int where the source compares
against 0 after subtraction (the preloader window).
-/

namespace LerobotDataStudio

/-! ## Episode selection store (useSelectedEpisodes.ts)

State is the Record `{ [datasetId: string]: number[] }`; reading a missing
key yields `[]` in the source (`prev[datasetId] || []`), so the state is a
total function with default `[]`.  The hook parameter `datasetId?: string`
is an `Option String`; every operation returns the state unchanged when it
is `none` (the `if (!datasetId) return;` guard). -/

/-- State of the selection store: dataset id to selected episode list. -/
def SelState : Type := String → List Nat

/-- The initial store state `{}`: every dataset maps to the empty list. -/
def emptySelection : SelState := fun _ => []

/-- The source sorts with `[...].sort((a, b) => a - b)`: ascending numeric
order.  For number lists the ascending sorted permutation is unique, so a
stable insertion sort models it exactly. -/
def sortEpisodes (l : List Nat) : List Nat := List.insertionSort (· ≤ ·) l

/-- toggleEpisode from useSelectedEpisodes.ts: no-op without a dataset id;
otherwise remove the episode if present (`current.filter(id => id !== episodeId)`)
or append it and sort (`[...current, episodeId].sort((a, b) => a - b)`). -/
def toggleEpisode (datasetId : Option String) (episodeId : Nat) (prev : SelState) :
    SelState :=
  match datasetId with
  | none => prev
  | some d =>
      let current := prev d
      if episodeId ∈ current then
        Function.update prev d (current.filter (fun id => id ≠ episodeId))
      else
        Function.update prev d (sortEpisodes (current ++ [episodeId]))

/-- clearSelection from useSelectedEpisodes.ts: store `[]` under the active
dataset id; no-op without one. -/
def clearSelection (datasetId : Option String) (prev : SelState) : SelState :=
  match datasetId with
  | none => prev
  | some d => Function.update prev d []

/-- selectAll from useSelectedEpisodes.ts: store the given ids sorted
(`[...episodeIds].sort((a, b) => a - b)`); no-op without a dataset id. -/
def selectAll (datasetId : Option String) (episodeIds : List Nat) (prev : SelState) :
    SelState :=
  match datasetId with
  | none => prev
  | some d => Function.update prev d (sortEpisodes episodeIds)

/-- isSelected from useSelectedEpisodes.ts: false without a dataset id,
else membership in the stored list (`includes`). -/
def isSelected (datasetId : Option String) (episodeId : Nat) (s : SelState) : Bool :=
  match datasetId with
  | none => false
  | some d => decide (episodeId ∈ s d)

/-- getSelectedForDataset from useSelectedEpisodes.ts: the stored list for
the active dataset id, `[]` without one. -/
def getSelectedForDataset (datasetId : Option String) (s : SelState) : List Nat :=
  match datasetId with
  | none => []
  | some d => s d

/-- selectedCount: length of the exposed selection list. -/
def selectedCount (datasetId : Option String) (s : SelState) : Nat :=
  (getSelectedForDataset datasetId s).length

/-- Fold a list of toggleEpisode calls over the store. -/
def applyToggles (datasetId : Option String) (l : List Nat) (s : SelState) : SelState :=
  l.foldl (fun st e => toggleEpisode datasetId e st) s

/-- One mutating call on the selection store, tagged with its argument. -/
inductive SelOp : Type where
  | toggle (episodeId : Nat)
  | clear
  | selAll (episodeIds : List Nat)

/-- Dispatch one store operation. -/
def applySelOp (datasetId : Option String) (op : SelOp) (s : SelState) : SelState :=
  match op with
  | .toggle e => toggleEpisode datasetId e s
  | .clear => clearSelection datasetId s
  | .selAll ids => selectAll datasetId ids s

/-- Fold a sequence of store operations, each with its own dataset id. -/
def applySelOps (ops : List (Option String × SelOp)) (s : SelState) : SelState :=
  ops.foldl (fun st p => applySelOp p.1 p.2 st) s

/-- Well-formed call: a selectAll argument is duplicate-free (toggle and
clear calls are unrestricted). -/
def selOpWF : SelOp → Bool
  | .selAll ids => decide ids.Nodup
  | _ => true

/-- Every per-dataset stored list is ascending and duplicate-free. -/
def SelInvariant (s : SelState) : Prop :=
  ∀ d, (s d).Sorted (· ≤ ·) ∧ (s d).Nodup

/-- A concrete operation sequence used to instantiate the invariant. -/
def wOps : List (Option String × SelOp) :=
  [(some "a", .toggle 3), (some "a", .selAll [2, 0, 1]), (some "a", .toggle 1),
   (some "b", .toggle 5), (none, .clear), (some "a", .toggle 4)]

/-! ## Task-tagging store (useTaskManagement) and the creation-request
builder (createDataset.ts)

The `episodeTasks` Record (episode id to selected task) is modelled as an
association list of its entries; Record indexing is first-match lookup
(Record keys are unique, so first match is the match). -/

/-- Record indexing `record[episodeId]` on an entry list. -/
def lookupEpisode : List (Nat × String) → Nat → Option String
  | [], _ => none
  | p :: t, e => if p.1 = e then some p.2 else lookupEpisode t e

/-- Task-tagging store state: the ordered task list and the episode
override Record. -/
structure TaskState where
  availableTasks : List String
  episodeTasks : List (Nat × String)

/-- removeTask from useTaskManagement: filter the label out of
availableTasks, and delete every override entry whose value is the removed
label (the Object.keys loop deleting keys with `updated[key] === task`). -/
def removeTask (task : String) (s : TaskState) : TaskState :=
  { availableTasks := s.availableTasks.filter (fun t => t ≠ task)
    episodeTasks := s.episodeTasks.filter (fun p => p.2 ≠ task) }

/-- getEpisodeTask from useTaskManagement: `episodeTasks[episodeId]`. -/
def TaskState.getEpisodeTask (s : TaskState) (episodeId : Nat) : Option String :=
  lookupEpisode s.episodeTasks episodeId

/-- getDefaultTask from useTaskManagement: `availableTasks[0]`. -/
def TaskState.getDefaultTask (s : TaskState) : Option String :=
  s.availableTasks.head?

/-- The payload built by createDatasetRequest (createDataset.ts). -/
structure CreateDatasetPayload where
  original_repo_id : String
  new_repo_id : String
  selected_episodes : List Nat
  episode_index_task_map : Option (List (Nat × String))

/-- Entries of the `episodeTasks` Record accumulated by the forEach loop of
createDatasetRequest: one entry per selected episode whose `getEpisodeTask`
result is truthy (a JavaScript string is truthy exactly when non-empty). -/
def collectEpisodeTasks (selectedEpisodes : List Nat)
    (getEpisodeTask : Nat → Option String) : List (Nat × String) :=
  selectedEpisodes.filterMap (fun ep =>
    match getEpisodeTask ep with
    | some task => if task = "" then none else some (ep, task)
    | none => none)

/-- createDatasetRequest from createDataset.ts: validate the inputs (throw
on falsy datasetId or newRepoId or an empty selection), then build the
payload, attaching `episode_index_task_map` only when at least one entry
was collected (`hasCustomEpisodeTasks`). -/
def createDatasetRequest (datasetId newRepoId : String) (selectedEpisodes : List Nat)
    (getEpisodeTask : Nat → Option String) : Except String CreateDatasetPayload :=
  if datasetId = "" ∨ newRepoId = "" ∨ selectedEpisodes = [] then
    Except.error "Invalid parameters"
  else
    let episodeTasks := collectEpisodeTasks selectedEpisodes getEpisodeTask
    Except.ok
      { original_repo_id := datasetId
        new_repo_id := newRepoId
        selected_episodes := selectedEpisodes
        episode_index_task_map := if episodeTasks = [] then none else some episodeTasks }

/-- Concrete override function of the worked example: an override only on
episode 1. -/
def wGetTask : Nat → Option String :=
  fun e => if e = 1 then some "override" else none

/-- A concrete task-store state used to instantiate the removeTask theorem. -/
def wTaskState : TaskState :=
  { availableTasks := ["pick", "place"]
    episodeTasks := [(0, "pick"), (1, "place"), (2, "pick")] }

/-! ## Video preloader (useVideoPreloader)

One run of the effect is modelled on the key set of the `preloadedVideos`
Map (the retained video elements are its values, one per key).  Episode
ids are Int because the source forms `currentEpisodeId - i` and then
tests `prevId >= 0`. -/

/-- The valid previous neighbors: currentEpisodeId - i for i = 1..N kept
when `prevId >= 0`. -/
def prevWindow (currentEpisodeId : Int) (preloadCount : Nat) : Finset Int :=
  ((Finset.range preloadCount).image (fun (i : Nat) => currentEpisodeId - ((i : Int) + 1))).filter
    (fun id => 0 ≤ id)

/-- The valid next neighbors: currentEpisodeId + i for i = 1..N kept when
`nextId < totalEpisodes`. -/
def nextWindow (currentEpisodeId totalEpisodes : Int) (preloadCount : Nat) : Finset Int :=
  ((Finset.range preloadCount).image (fun (i : Nat) => currentEpisodeId + ((i : Int) + 1))).filter
    (fun id => id < totalEpisodes)

/-- The in-window neighbor ids, the `currentPreloaded` set of one run. -/
def preloadWindow (currentEpisodeId totalEpisodes : Int) (preloadCount : Nat) : Finset Int :=
  prevWindow currentEpisodeId preloadCount ∪
    nextWindow currentEpisodeId totalEpisodes preloadCount

/-- One run of the preloader effect: preloadVideo inserts each in-window id
that resolves to a URL (ids already present are skipped, which on the key
set is the same union), then every retained id outside the window other
than the current episode id is deleted. -/
def runPreloader (currentEpisodeId totalEpisodes : Int) (preloadCount : Nat)
    (getVideoUrl : Int → Option String) (m : Finset Int) : Finset Int :=
  let W := preloadWindow currentEpisodeId totalEpisodes preloadCount
  (m ∪ W.filter (fun e => (getVideoUrl e).isSome)).filter
    (fun e => e ∈ W ∨ e = currentEpisodeId)

/-- A concrete URL resolver: every episode has a video URL. -/
def wUrl : Int → Option String := fun _ => some "u"

/-- A concrete retained key set from a previous navigation. -/
def wPreloaded : Finset Int := {5, 0}

/-! ## Async polling

waitForDataset (api.ts) and the creation-status polling effect
(DatasetViewer).  A poll outcome is `Except String _`: `Except.error` is a
request that threw (network error). -/

/-- Status payload of the dataset status endpoint. -/
structure DatasetLoadingStatus where
  status : String
  message : Option String

/-- waitForDataset poll interval in milliseconds (`pollInterval`). -/
def waitPollIntervalMs : Nat := 1000

/-- waitForDataset maximum number of polls (`maxRetries`, 5 minutes at one
poll per second). -/
def maxRetries : Nat := 300

/-- A poll outcome that keeps the waitForDataset loop going: a response
whose status is neither ready nor error.  A thrown request is never
non-terminal: the loop body has no try/catch. -/
def nonTerminalLoad (r : Except String DatasetLoadingStatus) : Bool :=
  match r with
  | Except.ok s => s.status != "ready" && s.status != "error"
  | Except.error _ => false

/-- The while loop of waitForDataset: fuel is the remaining retries, k the
number of polls already made.  Returns the outcome and the total number of
polls performed.  A thrown request propagates out immediately. -/
def waitForDatasetGo (polls : Nat → Except String DatasetLoadingStatus) :
    Nat → Nat → Except String Unit × Nat
  | 0, k => (Except.error "Dataset loading timeout", k)
  | fuel + 1, k =>
      match polls k with
      | Except.error e => (Except.error e, k + 1)
      | Except.ok status =>
          if status.status = "ready" then (Except.ok (), k + 1)
          else if status.status = "error" then
            (Except.error (status.message.getD "Dataset loading failed"), k + 1)
          else waitForDatasetGo polls fuel (k + 1)

/-- waitForDataset from api.ts: poll until ready, error, or maxRetries. -/
def waitForDataset (polls : Nat → Except String DatasetLoadingStatus) :
    Except String Unit × Nat :=
  waitForDatasetGo polls maxRetries 0

/-- A concrete poll sequence: two loading responses, then ready. -/
def wPolls : Nat → Except String DatasetLoadingStatus :=
  fun j => if j < 2 then Except.ok ⟨"loading", none⟩ else Except.ok ⟨"ready", none⟩

/-- Status payload of the creation status endpoint. -/
structure CreateStatus where
  status : String

/-- Creation-status poll interval in milliseconds (setInterval period). -/
def creationPollIntervalMs : Nat := 2000

/-- One pollStatus call of the creation-status effect: a completed or
failed status clears the driving task id, any other status keeps it, and a
thrown request is caught, logged (console.error), and leaves the task id
in place so polling continues. -/
def pollStatusStep (result : Except String CreateStatus) (taskId : Option String)
    (log : List String) : Option String × List String :=
  match taskId with
  | none => (taskId, log)
  | some t =>
      match result with
      | Except.error e => (some t, log ++ [e])
      | Except.ok st =>
          if st.status = "completed" then (none, log)
          else if st.status = "failed" then (none, log)
          else (some t, log)

/-- One interval tick: the poll runs only while a task id is present (once
it is cleared, the effect re-runs and its cleanup has removed the
interval), counting polls performed. -/
def creationTick (st : Option String × Nat) (r : Except String CreateStatus) :
    Option String × Nat :=
  match st.1 with
  | none => st
  | some _ => ((pollStatusStep r st.1 []).1, st.2 + 1)

/-- A run of the creation-status poller over a tick sequence. -/
def runCreationPolling (taskId : Option String)
    (resps : List (Except String CreateStatus)) : Option String × Nat :=
  resps.foldl creationTick (taskId, 0)

/-- A creation poll outcome on which polling must continue: a pending or
running (or any non-terminal) status, or a caught request error. -/
def nonTerminalCreate (r : Except String CreateStatus) : Bool :=
  match r with
  | Except.ok s => s.status != "completed" && s.status != "failed"
  | Except.error _ => true

/-- Whether the creation-status effect has an interval registered: the
effect returns early without one when no task id drives it. -/
def creationIntervalActive (taskId : Option String) : Bool :=
  taskId.isSome

/-- Interval state after the effect cleanup (unmount or task-id change):
clearInterval leaves no interval. -/
def creationIntervalAfterCleanup : Bool := false

lemma mem_sortEpisodes {l : List Nat} {e : Nat} : e ∈ sortEpisodes l ↔ e ∈ l :=
  List.mem_insertionSort _

lemma mem_toggleEpisode (d : String) (a e : Nat) (s : SelState) :
    e ∈ (toggleEpisode (some d) a s) d ↔ (if a = e then e ∉ s d else e ∈ s d) := by
  unfold toggleEpisode
  by_cases h : a ∈ s d
  · simp only [h, if_pos, Function.update_same, List.mem_filter, decide_eq_true_iff]
    by_cases hae : a = e
    · subst hae; simp [h]
    · simp [Ne.symm hae, hae]
  · simp only [h, if_neg, Function.update_same, mem_sortEpisodes, List.mem_append,
      List.mem_singleton, if_false]
    by_cases hae : a = e
    · subst hae; simp [h]
    · have hea : e ≠ a := fun he => hae he.symm
      simp [hae, hea]

lemma mem_applyToggles (d : String) (e : Nat) :
    ∀ (l : List Nat) (s : SelState),
      (e ∈ applyToggles (some d) l s d) ↔ ((e ∈ s d) ↔ ¬ Odd (l.count e)) := by
  intro l
  induction l with
  | nil => intro s; simp [applyToggles]
  | cons a t ih =>
      intro s
      have hstep : applyToggles (some d) (a :: t) s =
          applyToggles (some d) t (toggleEpisode (some d) a s) := rfl
      rw [hstep, ih, mem_toggleEpisode]
      by_cases hae : a = e
      · subst hae
        simp only [if_pos, List.count_cons_self, Nat.odd_add_one, not_not]
        tauto
      · have : e ≠ a := fun he => hae he.symm
        simp only [if_neg hae, List.count_cons_of_ne this]

/-- C2: starting from the empty selection, after any finite sequence of
toggleEpisode calls with a fixed defined dataset id, isSelected reports an
episode exactly when it was toggled an odd number of times. -/
theorem isSelected_applyToggles_parity (d : String) (e : Nat) (l : List Nat) :
    isSelected (some d) e (applyToggles (some d) l emptySelection) = true ↔
      Odd (l.count e) := by
  have h := mem_applyToggles d e l emptySelection
  simp only [emptySelection, List.not_mem_nil, false_iff, not_not] at h
  simp [isSelected, h]

/-- C7: toggleEpisode, clearSelection, and selectAll invoked with active
dataset id d leave the selection list of every other dataset id unchanged. -/
theorem selection_ops_frame (d d' : String) (h : d' ≠ d) (e : Nat) (ids : List Nat)
    (s : SelState) :
    toggleEpisode (some d) e s d' = s d' ∧
    clearSelection (some d) s d' = s d' ∧
    selectAll (some d) ids s d' = s d' := by
  refine ⟨?_, ?_, ?_⟩
  · unfold toggleEpisode
    by_cases hm : e ∈ s d <;> simp [hm, Function.update_noteq h]
  · simp [clearSelection, Function.update_noteq h]
  · simp [selectAll, Function.update_noteq h]

theorem selection_ops_frame_witness :
    toggleEpisode (some "a") 0 emptySelection "b" = emptySelection "b" ∧
    clearSelection (some "a") emptySelection "b" = emptySelection "b" ∧
    selectAll (some "a") [1, 2] emptySelection "b" = emptySelection "b" :=
  selection_ops_frame "a" "b" (by decide) 0 [1, 2] emptySelection

/-- C10: with an undefined dataset id every mutating operation is the
identity, isSelected is false, the exposed list is empty and the count 0. -/
theorem no_dataset_id_noop (e : Nat) (ids : List Nat) (s : SelState) :
    toggleEpisode none e s = s ∧
    clearSelection none s = s ∧
    selectAll none ids s = s ∧
    isSelected none e s = false ∧
    getSelectedForDataset none s = [] ∧
    selectedCount none s = 0 :=
  ⟨rfl, rfl, rfl, rfl, rfl, rfl⟩

lemma sorted_sortEpisodes (l : List Nat) : (sortEpisodes l).Sorted (· ≤ ·) :=
  List.sorted_insertionSort _ l

lemma nodup_sortEpisodes {l : List Nat} (h : l.Nodup) : (sortEpisodes l).Nodup :=
  ((List.perm_insertionSort _ l).nodup_iff).mpr h

lemma selInvariant_empty : SelInvariant emptySelection := by
  intro d; exact ⟨List.sorted_nil, List.nodup_nil⟩

lemma selInvariant_update {s : SelState} (hs : SelInvariant s) (d : String)
    {l : List Nat} (hsort : l.Sorted (· ≤ ·)) (hnd : l.Nodup) :
    SelInvariant (Function.update s d l) := by
  intro d'
  by_cases hd : d' = d
  · subst hd; simpa [Function.update_same] using ⟨hsort, hnd⟩
  · simpa [Function.update_noteq hd] using hs d'

lemma selInvariant_applySelOp (datasetId : Option String) (op : SelOp) (s : SelState)
    (hs : SelInvariant s) (hop : selOpWF op = true) :
    SelInvariant (applySelOp datasetId op s) := by
  cases datasetId with
  | none => cases op <;> exact hs
  | some d =>
      cases op with
      | toggle e =>
          show SelInvariant (toggleEpisode (some d) e s)
          unfold toggleEpisode
          by_cases hm : e ∈ s d
          · simp only [if_pos hm]
            exact selInvariant_update hs d ((hs d).1.filter _) ((hs d).2.filter _)
          · simp only [if_neg hm]
            have hnd : (s d ++ [e]).Nodup := by
              simp [List.nodup_append, (hs d).2, hm]
            exact selInvariant_update hs d (sorted_sortEpisodes _) (nodup_sortEpisodes hnd)
      | clear =>
          exact selInvariant_update hs d List.sorted_nil List.nodup_nil
      | selAll ids =>
          have hnd : ids.Nodup := by simpa [selOpWF] using hop
          exact selInvariant_update hs d (sorted_sortEpisodes ids) (nodup_sortEpisodes hnd)

lemma selInvariant_applySelOps (ops : List (Option String × SelOp))
    (hops : ∀ p ∈ ops, selOpWF p.2 = true) :
    ∀ s : SelState, SelInvariant s → SelInvariant (applySelOps ops s) := by
  induction ops with
  | nil => intro s hs; exact hs
  | cons p t ih =>
      intro s hs
      have h1 : selOpWF p.2 = true := hops p (List.mem_cons_self p t)
      have ht : ∀ q ∈ t, selOpWF q.2 = true := fun q hq => hops q (List.mem_cons_of_mem p hq)
      exact ih ht _ (selInvariant_applySelOp p.1 p.2 s hs h1)

/-- C9: from the empty selection, after any sequence of toggleEpisode,
clearSelection and selectAll calls whose selectAll arguments are
duplicate-free, every stored per-dataset selection list is ascending and
has no duplicate episode ids. -/
theorem selection_list_sorted_nodup (ops : List (Option String × SelOp))
    (hops : ∀ p ∈ ops, selOpWF p.2 = true) (d : String) :
    (applySelOps ops emptySelection d).Sorted (· ≤ ·) ∧
      (applySelOps ops emptySelection d).Nodup :=
  selInvariant_applySelOps ops hops emptySelection selInvariant_empty d

theorem selection_list_sorted_nodup_witness :
    (∀ p ∈ wOps, selOpWF p.2 = true) ∧
    ((applySelOps wOps emptySelection "a").Sorted (· ≤ ·) ∧
      (applySelOps wOps emptySelection "a").Nodup) :=
  ⟨by decide, selection_list_sorted_nodup wOps (by decide) "a"⟩

lemma mem_of_lookupEpisode_eq_some :
    ∀ {l : List (Nat × String)} {e : Nat} {v : String},
      lookupEpisode l e = some v → (e, v) ∈ l := by
  intro l
  induction l with
  | nil => intro e v h; simp [lookupEpisode] at h
  | cons p t ih =>
      intro e v h
      simp only [lookupEpisode] at h
      by_cases hp : p.1 = e
      · rw [if_pos hp] at h
        obtain ⟨k, w⟩ := p
        injection h with hv
        subst hv
        simp only [] at hp
        subst hp
        exact List.mem_cons_self _ _
      · rw [if_neg hp] at h
        exact List.mem_cons_of_mem _ (ih h)

/-- C3: removeTask purges the removed label from availableTasks and from
every episode override: afterwards no override looks up to the label, the
entries valued with the label are deleted, entries with other values are
kept, and no entry appears that was not there before. -/
theorem removeTask_purges_label (s : TaskState) (L : String) :
    L ∉ (removeTask L s).availableTasks ∧
    (∀ e, (removeTask L s).getEpisodeTask e ≠ some L) ∧
    (∀ p ∈ s.episodeTasks, p.2 = L → p ∉ (removeTask L s).episodeTasks) ∧
    (∀ p ∈ s.episodeTasks, p.2 ≠ L → p ∈ (removeTask L s).episodeTasks) ∧
    (∀ p ∈ (removeTask L s).episodeTasks, p ∈ s.episodeTasks ∧ p.2 ≠ L) := by
  refine ⟨?_, ?_, ?_, ?_, ?_⟩
  · simp [removeTask, List.mem_filter]
  · intro e h
    have hm := mem_of_lookupEpisode_eq_some h
    simp [removeTask, List.mem_filter] at hm
  · intro p hp hv
    simp [removeTask, List.mem_filter, hv]
  · intro p hp hv
    simp [removeTask, List.mem_filter, hp, hv]
  · intro p hp
    simpa [removeTask, List.mem_filter] using hp

theorem removeTask_purges_label_witness :
    "pick" ∉ (removeTask "pick" wTaskState).availableTasks ∧
    (removeTask "pick" wTaskState).getEpisodeTask 0 ≠ some "pick" ∧
    (1, "place") ∈ (removeTask "pick" wTaskState).episodeTasks :=
  ⟨(removeTask_purges_label wTaskState "pick").1,
   (removeTask_purges_label wTaskState "pick").2.1 0,
   (removeTask_purges_label wTaskState "pick").2.2.2.1 (1, "place") (by decide) (by decide)⟩

lemma collectEpisodeTasks_eq_nil_iff (sel : List Nat) (g : Nat → Option String)
    (hlabel : ∀ e t, g e = some t → t ≠ "") :
    collectEpisodeTasks sel g = [] ↔ ∀ e ∈ sel, g e = none := by
  unfold collectEpisodeTasks
  rw [List.filterMap_eq_nil_iff]
  constructor
  · intro h e he
    have hfe := h e he
    cases hg : g e with
    | none => rfl
    | some t =>
        simp only [hg, if_neg (hlabel e t hg)] at hfe
        cases hfe
  · intro h e he
    simp only [h e he]

lemma mem_collectEpisodeTasks (sel : List Nat) (g : Nat → Option String)
    (hlabel : ∀ e t, g e = some t → t ≠ "") (e : Nat) (t : String) :
    (e, t) ∈ collectEpisodeTasks sel g ↔ e ∈ sel ∧ g e = some t := by
  unfold collectEpisodeTasks
  rw [List.mem_filterMap]
  constructor
  · rintro ⟨a, ha, hf⟩
    cases hg : g a with
    | none =>
        simp only [hg] at hf
        cases hf
    | some ta =>
        simp only [hg, if_neg (hlabel a ta hg)] at hf
        injection hf with hpair
        rw [Prod.ext_iff] at hpair
        obtain ⟨h1, h2⟩ := hpair
        simp only [] at h1 h2
        subst h1
        subst h2
        exact ⟨ha, hg⟩
  · rintro ⟨he, hg⟩
    exact ⟨e, he, by simp only [hg, if_neg (hlabel e t hg)]⟩

/-- C1: for valid inputs whose episode overrides are task labels (JavaScript
truthiness of a string is non-emptiness, and a task label is never empty:
addTask rejects the empty string), the payload carries
episode_index_task_map exactly when some selected episode has an override,
and the map holds exactly the overridden selected episodes, each mapped to
its override label. -/
theorem createDatasetRequest_map_iff
    (datasetId newRepoId : String) (selectedEpisodes : List Nat)
    (g : Nat → Option String)
    (hd : datasetId ≠ "") (hr : newRepoId ≠ "") (hs : selectedEpisodes ≠ [])
    (hlabel : ∀ e t, g e = some t → t ≠ "") :
    ∃ payload,
      createDatasetRequest datasetId newRepoId selectedEpisodes g = Except.ok payload ∧
      (payload.episode_index_task_map ≠ none ↔
        ∃ e ∈ selectedEpisodes, (g e).isSome) ∧
      (∀ m, payload.episode_index_task_map = some m →
        ∀ e t, (e, t) ∈ m ↔ e ∈ selectedEpisodes ∧ g e = some t) := by
  have hcond : ¬(datasetId = "" ∨ newRepoId = "" ∨ selectedEpisodes = []) := by
    push_neg
    exact ⟨hd, hr, hs⟩
  refine ⟨{ original_repo_id := datasetId
            new_repo_id := newRepoId
            selected_episodes := selectedEpisodes
            episode_index_task_map :=
              if collectEpisodeTasks selectedEpisodes g = [] then none
              else some (collectEpisodeTasks selectedEpisodes g) }, ?_, ?_, ?_⟩
  · unfold createDatasetRequest
    rw [if_neg hcond]
  · by_cases hc : collectEpisodeTasks selectedEpisodes g = []
    · simp only [hc, if_pos, ne_eq, not_true_eq_false, false_iff, not_exists]
      rintro e ⟨he, hsome⟩
      rw [collectEpisodeTasks_eq_nil_iff _ _ hlabel] at hc
      rw [hc e he] at hsome
      cases hsome
    · simp only [if_neg hc, ne_eq, reduceCtorEq, not_false_eq_true, true_iff]
      by_contra hno
      push_neg at hno
      apply hc
      rw [collectEpisodeTasks_eq_nil_iff _ _ hlabel]
      intro e he
      have hne := hno e he
      cases hg : g e with
      | none => rfl
      | some t => rw [hg] at hne; cases hne rfl
  · intro m hm
    by_cases hc : collectEpisodeTasks selectedEpisodes g = []
    · rw [if_pos hc] at hm
      cases hm
    · rw [if_neg hc] at hm
      injection hm with hm
      subst hm
      intro e t
      exact mem_collectEpisodeTasks selectedEpisodes g hlabel e t

theorem createDatasetRequest_map_iff_witness :
    ∃ payload,
      createDatasetRequest "user/ds" "user/new" [0, 1, 2] wGetTask = Except.ok payload ∧
      (payload.episode_index_task_map ≠ none ↔
        ∃ e ∈ [0, 1, 2], (wGetTask e).isSome) ∧
      (∀ m, payload.episode_index_task_map = some m →
        ∀ e t, (e, t) ∈ m ↔ e ∈ [0, 1, 2] ∧ wGetTask e = some t) :=
  createDatasetRequest_map_iff "user/ds" "user/new" [0, 1, 2] wGetTask
    (by decide) (by decide) (by decide)
    (by
      intro e t h
      by_cases he : e = 1
      · simp only [wGetTask, he, if_pos] at h
        injection h with h
        subst h
        decide
      · simp only [wGetTask, if_neg he] at h
        cases h)

lemma lookupEpisode_collectEpisodeTasks (g : Nat → Option String)
    (hlabel : ∀ e t, g e = some t → t ≠ "") :
    ∀ (sel : List Nat) (e : Nat) (t : String), e ∈ sel → g e = some t →
      lookupEpisode (collectEpisodeTasks sel g) e = some t := by
  intro sel
  induction sel with
  | nil =>
      intro e t he
      cases he
  | cons a rest ih =>
      intro e t he hg
      unfold collectEpisodeTasks
      rw [List.filterMap_cons]
      cases hga : g a with
      | none =>
          simp only [hga]
          have he2 : e ∈ rest := by
            rcases List.mem_cons.mp he with h | h
            · subst h
              rw [hg] at hga
              cases hga
            · exact h
          simpa [collectEpisodeTasks] using ih e t he2 hg
      | some ta =>
          simp only [hga, if_neg (hlabel a ta hga)]
          by_cases hae : a = e
          · subst hae
            rw [hg] at hga
            injection hga with hta
            subst hta
            simp [lookupEpisode]
          · simp only [lookupEpisode, if_neg hae]
            have he2 : e ∈ rest := by
              rcases List.mem_cons.mp he with h | h
              · exact absurd h.symm hae
              · exact h
            simpa [collectEpisodeTasks] using ih e t he2 hg

/-- C6: a selected episode with an override is always mapped, in the
payload of createDatasetRequest, to exactly its override label; the map is
populated solely from getEpisodeTask (the builder takes no default task at
all), so the default (first) task can never displace the override. -/
theorem createDatasetRequest_override_precedence
    (datasetId newRepoId : String) (selectedEpisodes : List Nat)
    (g : Nat → Option String)
    (hd : datasetId ≠ "") (hr : newRepoId ≠ "")
    (hlabel : ∀ e t, g e = some t → t ≠ "")
    (e : Nat) (t : String) (he : e ∈ selectedEpisodes) (ht : g e = some t) :
    ∃ payload m,
      createDatasetRequest datasetId newRepoId selectedEpisodes g = Except.ok payload ∧
      payload.episode_index_task_map = some m ∧
      lookupEpisode m e = some t ∧
      (∀ u, lookupEpisode m e = some u → u = t) := by
  have hs : selectedEpisodes ≠ [] := List.ne_nil_of_mem he
  have hcond : ¬(datasetId = "" ∨ newRepoId = "" ∨ selectedEpisodes = []) := by
    push_neg
    exact ⟨hd, hr, hs⟩
  have hmem : (e, t) ∈ collectEpisodeTasks selectedEpisodes g :=
    (mem_collectEpisodeTasks selectedEpisodes g hlabel e t).mpr ⟨he, ht⟩
  have hc : collectEpisodeTasks selectedEpisodes g ≠ [] := List.ne_nil_of_mem hmem
  have hlook : lookupEpisode (collectEpisodeTasks selectedEpisodes g) e = some t :=
    lookupEpisode_collectEpisodeTasks g hlabel selectedEpisodes e t he ht
  refine ⟨{ original_repo_id := datasetId
            new_repo_id := newRepoId
            selected_episodes := selectedEpisodes
            episode_index_task_map :=
              if collectEpisodeTasks selectedEpisodes g = [] then none
              else some (collectEpisodeTasks selectedEpisodes g) },
          collectEpisodeTasks selectedEpisodes g, ?_, ?_, hlook, ?_⟩
  · unfold createDatasetRequest
    rw [if_neg hcond]
  · simp only [if_neg hc]
  · intro u hu
    rw [hlook] at hu
    injection hu with hu
    exact hu.symm

theorem createDatasetRequest_override_precedence_witness :
    ∃ payload m,
      createDatasetRequest "user/ds" "user/new" [0, 1, 2] wGetTask = Except.ok payload ∧
      payload.episode_index_task_map = some m ∧
      lookupEpisode m 1 = some "override" ∧
      (∀ u, lookupEpisode m 1 = some u → u = "override") :=
  createDatasetRequest_override_precedence "user/ds" "user/new" [0, 1, 2] wGetTask
    (by decide) (by decide)
    (by
      intro e t h
      by_cases he : e = 1
      · simp only [wGetTask, he, if_pos] at h
        injection h with h
        subst h
        decide
      · simp only [wGetTask, if_neg he] at h
        cases h)
    1 "override" (by decide) (by simp [wGetTask])

/-- C4: after any run of the preloader effect, every retained id is an
in-window neighbor or the current episode id, so at most 2 x N + 1 video
elements are retained for window size N. -/
theorem preloader_window_bound (currentEpisodeId totalEpisodes : Int) (preloadCount : Nat)
    (getVideoUrl : Int → Option String) (m : Finset Int) :
    (runPreloader currentEpisodeId totalEpisodes preloadCount getVideoUrl m).card ≤
      2 * preloadCount + 1 ∧
    ∀ e ∈ runPreloader currentEpisodeId totalEpisodes preloadCount getVideoUrl m,
      e ∈ preloadWindow currentEpisodeId totalEpisodes preloadCount ∨
        e = currentEpisodeId := by
  have hmem : ∀ e ∈ runPreloader currentEpisodeId totalEpisodes preloadCount getVideoUrl m,
      e ∈ preloadWindow currentEpisodeId totalEpisodes preloadCount ∨
        e = currentEpisodeId := by
    intro e he
    simp only [runPreloader] at he
    exact (Finset.mem_filter.mp he).2
  refine ⟨?_, hmem⟩
  have hsub : runPreloader currentEpisodeId totalEpisodes preloadCount getVideoUrl m ⊆
      insert currentEpisodeId (preloadWindow currentEpisodeId totalEpisodes preloadCount) := by
    intro e he
    rcases hmem e he with h | h
    · exact Finset.mem_insert_of_mem h
    · rw [h]
      exact Finset.mem_insert_self _ _
  have h1 := Finset.card_le_card hsub
  have h2 := Finset.card_insert_le currentEpisodeId
    (preloadWindow currentEpisodeId totalEpisodes preloadCount)
  have hp : (prevWindow currentEpisodeId preloadCount).card ≤ preloadCount := by
    refine le_trans (Finset.card_filter_le _ _) ?_
    refine le_trans Finset.card_image_le ?_
    simp
  have hn : (nextWindow currentEpisodeId totalEpisodes preloadCount).card ≤ preloadCount := by
    refine le_trans (Finset.card_filter_le _ _) ?_
    refine le_trans Finset.card_image_le ?_
    simp
  have hu := Finset.card_union_le (prevWindow currentEpisodeId preloadCount)
    (nextWindow currentEpisodeId totalEpisodes preloadCount)
  have hW : (preloadWindow currentEpisodeId totalEpisodes preloadCount).card ≤
      2 * preloadCount := by
    simp only [preloadWindow]
    omega
  omega

theorem preloader_window_bound_witness :
    (runPreloader 5 10 2 wUrl wPreloaded).card ≤ 2 * 2 + 1 ∧
    ((3 : Int) ∈ preloadWindow 5 10 2 ∨ (3 : Int) = 5) :=
  ⟨(preloader_window_bound 5 10 2 wUrl wPreloaded).1,
   (preloader_window_bound 5 10 2 wUrl wPreloaded).2 3 (by decide)⟩

lemma waitForDatasetGo_skip (polls : Nat → Except String DatasetLoadingStatus)
    (fuel k : Nat) (h : nonTerminalLoad (polls k) = true) :
    waitForDatasetGo polls (fuel + 1) k = waitForDatasetGo polls fuel (k + 1) := by
  cases hs : polls k with
  | error e =>
      rw [hs] at h
      simp [nonTerminalLoad] at h
  | ok s =>
      rw [hs] at h
      simp only [nonTerminalLoad, Bool.and_eq_true, bne_iff_ne, ne_eq] at h
      obtain ⟨h1, h2⟩ := h
      simp [waitForDatasetGo, hs, h1, h2]

lemma waitForDatasetGo_add (polls : Nat → Except String DatasetLoadingStatus) :
    ∀ (m fuel k : Nat), (∀ j, j < m → nonTerminalLoad (polls (k + j)) = true) →
      waitForDatasetGo polls (fuel + m) k = waitForDatasetGo polls fuel (k + m) := by
  intro m
  induction m with
  | zero => intro fuel k _; rfl
  | succ n ih =>
      intro fuel k h
      have h0 : nonTerminalLoad (polls k) = true := by
        have hh := h 0 (Nat.succ_pos n)
        simpa using hh
      have hrest : ∀ j, j < n → nonTerminalLoad (polls (k + 1 + j)) = true := by
        intro j hj
        have hh := h (j + 1) (by omega)
        have harr : k + (j + 1) = k + 1 + j := by omega
        rwa [harr] at hh
      calc waitForDatasetGo polls (fuel + (n + 1)) k
          = waitForDatasetGo polls (fuel + n + 1) k := by
            have e : fuel + (n + 1) = fuel + n + 1 := by omega
            rw [e]
        _ = waitForDatasetGo polls (fuel + n) (k + 1) :=
            waitForDatasetGo_skip polls (fuel + n) k h0
        _ = waitForDatasetGo polls fuel (k + 1 + n) := ih fuel (k + 1) hrest
        _ = waitForDatasetGo polls fuel (k + (n + 1)) := by
            have e : k + 1 + n = k + (n + 1) := by omega
            rw [e]

lemma waitForDatasetGo_count_le (polls : Nat → Except String DatasetLoadingStatus) :
    ∀ (fuel k : Nat), (waitForDatasetGo polls fuel k).2 ≤ k + fuel := by
  intro fuel
  induction fuel with
  | zero =>
      intro k
      simp [waitForDatasetGo]
  | succ n ih =>
      intro k
      cases hs : polls k with
      | error e =>
          simp only [waitForDatasetGo, hs]
          omega
      | ok s =>
          by_cases h1 : s.status = "ready"
          · simp only [waitForDatasetGo, hs]
            rw [if_pos h1]
            omega
          · by_cases h2 : s.status = "error"
            · simp only [waitForDatasetGo, hs]
              rw [if_neg h1, if_pos h2]
              omega
            · have hrec := ih (k + 1)
              simp only [waitForDatasetGo, hs]
              rw [if_neg h1, if_neg h2]
              omega

/-- C5 amended: a failed status request is logged and polling continues in
the creation-status poller (which has no attempt cap), but waitForDataset
does not catch it: the exception propagates and polling stops at once.
waitForDataset performs at most 300 polls; with only non-terminal statuses
before poll m it returns normally when poll m reports ready, raises the
server message when poll m reports error status, raises the propagated
exception when poll m throws, and raises a timeout after 300 non-terminal
polls. -/
theorem polling_error_semantics :
    (∀ e t log, pollStatusStep (Except.error e) (some t) log = (some t, log ++ [e])) ∧
    (∀ polls, (waitForDataset polls).2 ≤ maxRetries) ∧
    (∀ polls m s, m < maxRetries → (∀ j, j < m → nonTerminalLoad (polls j) = true) →
      polls m = Except.ok s → s.status = "ready" →
      waitForDataset polls = (Except.ok (), m + 1)) ∧
    (∀ polls m s, m < maxRetries → (∀ j, j < m → nonTerminalLoad (polls j) = true) →
      polls m = Except.ok s → s.status = "error" →
      waitForDataset polls =
        (Except.error (s.message.getD "Dataset loading failed"), m + 1)) ∧
    (∀ polls m e, m < maxRetries → (∀ j, j < m → nonTerminalLoad (polls j) = true) →
      polls m = Except.error e →
      waitForDataset polls = (Except.error e, m + 1)) ∧
    (∀ polls, (∀ j, j < maxRetries → nonTerminalLoad (polls j) = true) →
      waitForDataset polls = (Except.error "Dataset loading timeout", maxRetries)) := by
  have hreach : ∀ (polls : Nat → Except String DatasetLoadingStatus) (m : Nat),
      m < maxRetries → (∀ j, j < m → nonTerminalLoad (polls j) = true) →
      waitForDataset polls = waitForDatasetGo polls (maxRetries - m) m := by
    intro polls m hm hj
    have e : maxRetries = (maxRetries - m) + m := by omega
    unfold waitForDataset
    rw [e, waitForDatasetGo_add polls m (maxRetries - m) 0 (by simpa using hj)]
    simp
  refine ⟨fun e t log => rfl, ?_, ?_, ?_, ?_, ?_⟩
  · intro polls
    have := waitForDatasetGo_count_le polls maxRetries 0
    simpa [waitForDataset] using this
  · intro polls m s hm hj hpm hst
    rw [hreach polls m hm hj]
    have e : maxRetries - m = (maxRetries - m - 1) + 1 := by omega
    rw [e]
    simp [waitForDatasetGo, hpm, hst]
  · intro polls m s hm hj hpm hst
    rw [hreach polls m hm hj]
    have e : maxRetries - m = (maxRetries - m - 1) + 1 := by omega
    rw [e]
    have hne : s.status ≠ "ready" := by
      rw [hst]
      decide
    simp [waitForDatasetGo, hpm, hne, hst]
  · intro polls m e hm hj hpm
    rw [hreach polls m hm hj]
    have harr : maxRetries - m = (maxRetries - m - 1) + 1 := by omega
    rw [harr]
    simp [waitForDatasetGo, hpm]
  · intro polls hj
    have e : maxRetries = 0 + maxRetries := by omega
    unfold waitForDataset
    rw [e, waitForDatasetGo_add polls maxRetries 0 0 (by simpa using hj)]
    try rfl

theorem polling_error_semantics_witness :
    (2 : Nat) < maxRetries ∧
    (∀ j, j < 2 → nonTerminalLoad (wPolls j) = true) ∧
    wPolls 2 = Except.ok ⟨"ready", none⟩ ∧
    waitForDataset wPolls = (Except.ok (), 3) :=
  ⟨by decide, by decide, rfl,
   polling_error_semantics.2.2.1 wPolls 2 ⟨"ready", none⟩ (by decide) (by decide) rfl rfl⟩

/-- C5 counterexample: at the poll sequence whose every request throws a
network error, waitForDataset stops after a single poll with the
propagated exception; it does not log and continue until the maximum
number of attempts. -/
theorem waitForDataset_network_error_stops :
    waitForDataset (fun _ => Except.error "network error") =
      (Except.error "network error", 1) ∧
    (waitForDataset (fun _ => Except.error "network error")).2 ≠ maxRetries := by
  constructor
  · show waitForDatasetGo _ maxRetries 0 = _
    have e : maxRetries = 299 + 1 := by decide
    rw [e]
    rfl
  · show (waitForDatasetGo _ maxRetries 0).2 ≠ maxRetries
    have e : maxRetries = 299 + 1 := by decide
    rw [e]
    decide

lemma runCreationPolling_stays_none (resps : List (Except String CreateStatus)) :
    ∀ st : Option String × Nat, st.1 = none → resps.foldl creationTick st = st := by
  induction resps with
  | nil => intro st _; rfl
  | cons r rest ih =>
      intro st h
      have hstep : creationTick st r = st := by
        obtain ⟨a, c⟩ := st
        simp only [] at h
        subst h
        rfl
      rw [List.foldl_cons, hstep]
      exact ih st h

lemma runCreationPolling_nonterminal (t : String) :
    ∀ (resps : List (Except String CreateStatus)) (c : Nat),
      (∀ r ∈ resps, nonTerminalCreate r = true) →
      resps.foldl creationTick (some t, c) = (some t, c + resps.length) := by
  intro resps
  induction resps with
  | nil => intro c _; rfl
  | cons r rest ih =>
      intro c h
      have hr : nonTerminalCreate r = true := h r (List.mem_cons_self r rest)
      have hstep : creationTick (some t, c) r = (some t, c + 1) := by
        cases r with
        | error e => rfl
        | ok s =>
            simp only [nonTerminalCreate, Bool.and_eq_true, bne_iff_ne, ne_eq] at hr
            obtain ⟨h1, h2⟩ := hr
            simp [creationTick, pollStatusStep, h1, h2]
      rw [List.foldl_cons, hstep,
        ih (c + 1) (fun q hq => h q (List.mem_cons_of_mem r hq))]
      have e2 : c + 1 + rest.length = c + (r :: rest).length := by
        simp only [List.length_cons]
        omega
      rw [e2]

/-- C8: the creation-status effect polls at the fixed 2000 ms interval; a
completed or failed status clears the driving task id, after which no
tick polls again; any other status, and any caught request error, keeps
the task id so polling continues across every tick; the effect registers
an interval only when a task id drives it, and its cleanup (unmount or
task-id change) clears the interval. -/
theorem creation_polling_lifecycle :
    creationPollIntervalMs = 2000 ∧
    (∀ t s, (s.status = "completed" ∨ s.status = "failed") →
      (pollStatusStep (Except.ok s) (some t) []).1 = none) ∧
    (∀ t s, s.status ≠ "completed" → s.status ≠ "failed" →
      (pollStatusStep (Except.ok s) (some t) []).1 = some t) ∧
    (∀ t e log, (pollStatusStep (Except.error e) (some t) log).1 = some t) ∧
    (∀ tid resps more, (runCreationPolling tid resps).1 = none →
      runCreationPolling tid (resps ++ more) = runCreationPolling tid resps) ∧
    (∀ t resps, (∀ r ∈ resps, nonTerminalCreate r = true) →
      runCreationPolling (some t) resps = (some t, resps.length)) ∧
    (∀ tid, creationIntervalActive tid = true ↔ tid ≠ none) ∧
    creationIntervalAfterCleanup = false := by
  refine ⟨rfl, ?_, ?_, fun t e log => rfl, ?_, ?_, ?_, rfl⟩
  · intro t s h
    rcases h with h | h <;> simp [pollStatusStep, h]
  · intro t s h1 h2
    simp [pollStatusStep, h1, h2]
  · intro tid resps more h
    unfold runCreationPolling at h ⊢
    rw [List.foldl_append]
    exact runCreationPolling_stays_none more _ h
  · intro t resps h
    have hx := runCreationPolling_nonterminal t resps 0 h
    simpa [runCreationPolling] using hx
  · intro tid
    cases tid <;> simp [creationIntervalActive]

theorem creation_polling_lifecycle_witness :
    ((⟨"completed"⟩ : CreateStatus).status = "completed" ∨
      (⟨"completed"⟩ : CreateStatus).status = "failed") ∧
    (pollStatusStep (Except.ok ⟨"completed"⟩) (some "task") []).1 = none ∧
    (∀ r ∈ [Except.ok ⟨"running"⟩, Except.error "net", Except.ok ⟨"pending"⟩],
      nonTerminalCreate r = true) ∧
    runCreationPolling (some "task")
      [Except.ok ⟨"running"⟩, Except.error "net", Except.ok ⟨"pending"⟩] =
      (some "task", 3) :=
  ⟨Or.inl rfl,
   creation_polling_lifecycle.2.1 "task" ⟨"completed"⟩ (Or.inl rfl),
   by decide,
   by
     have h := creation_polling_lifecycle.2.2.2.2.2.1 "task"
       [Except.ok ⟨"running"⟩, Except.error "net", Except.ok ⟨"pending"⟩] (by decide)
     simpa using h⟩

end LerobotDataStudio
